import Mathlib

/-!
# weron `manager list`: credential resolution and CSV rendering

A shallow embedding of `cmd/weron/cmd/manager_list.go`.  The command has two
callbacks, `PreRunE` and `RunE`, which the command framework runs in this
order.  Everything the callbacks reach outside the file (process environment,
the configuration store, the manager client, standard output) is an explicit
value here, so that each run is a pure function of its surroundings.

Go strings are modelled by Lean strings (sequences of Unicode code points);
where bytes matter (the buffered writer and the output stream) a string stands
for its UTF-8 encoding.  Strings that are not valid UTF-8 are outside the model.
The `context` that `RunE` creates and cancels on return takes no part in what
the callbacks compute and is left out.
-/

namespace Weron

/-! ## Errors -/

/-- Error values that can be returned by the command.  The first two are the
package-level variables of `manager_list.go`; `ErrShortWrite` is `io.ErrShortWrite`;
`external` stands for any error value produced by a collaborator (flag binding,
the manager client, the operating system). -/
inductive Error where
  | errMissingAPIPassword : Error
  | errMissingAPIUsername : Error
  | ErrShortWrite : Error
  | external (msg : String) : Error
  deriving DecidableEq, Repr

/-- Message of an error value, as `errors.New` received it. -/
def Error.message : Error → String
  | .errMissingAPIPassword => "missing API password"
  | .errMissingAPIUsername => "missing API username"
  | .ErrShortWrite => "short write"
  | .external msg => msg

/-! ## `unicode.IsSpace` and `strings.TrimSpace` -/

/-- Go `unicode.IsSpace`: in Latin-1 the characters tab, LF, VT, FF, CR, space,
U+0085 and U+00A0; above Latin-1 the code points of the `White_Space` table. -/
def IsSpace (r : Char) : Bool :=
  let n := r.toNat
  if n ≤ 0xFF then
    n == 0x09 || n == 0x0A || n == 0x0B || n == 0x0C || n == 0x0D || n == 0x20 ||
      n == 0x85 || n == 0xA0
  else
    n == 0x1680 || (0x2000 ≤ n && n ≤ 0x200A) || n == 0x2028 || n == 0x2029 ||
      n == 0x202F || n == 0x205F || n == 0x3000

/-- Go `strings.TrimSpace`: the string without its leading and trailing white
space, white space being what `unicode.IsSpace` accepts. -/
def TrimSpace (s : String) : String :=
  ⟨((s.data.dropWhile IsSpace).reverse.dropWhile IsSpace).reverse⟩

/-! ## The configuration store (viper) -/

/-- Modelled from the spec: the constant `apiUsernameFlag` is declared in another
file of the package; the spec names the flag `--api-username`. -/
def apiUsernameFlag : String := "api-username"

/-- Modelled from the spec: the constant `apiPasswordFlag` is declared in another
file of the package; the spec names the flag `--api-password`. -/
def apiPasswordFlag : String := "api-password"

/-- The constant `raddrFlag` of `manager_list.go`. -/
def raddrFlag : String := "raddr"

/-- The part of the viper store that the command reads.

* `bound k` is the flag-bound value of key `k`: what `viper.GetString(k)`
  yields once the command flags are bound and nothing has been `Set` (the
  flag value when given on the command line, else what viper finds below it,
  in the end the default of the flag).
* `override k` is the value stored for `k` by `viper.Set`, which viper ranks
  above every other source.
* `verbose` is the value of `viper.GetBool(verboseFlag)`; `verboseFlag` is a
  key different from the three string keys, so `Set` on them leaves it alone. -/
structure Viper where
  bound : String → String
  override : String → Option String
  verbose : Bool

/-- Viper `Set(key, value)`: records an override for `key`. -/
def Viper.Set (v : Viper) (key value : String) : Viper :=
  { v with override := fun k => if k = key then some value else v.override k }

/-- Viper `GetString(key)`: the override when there is one, else the bound value. -/
def Viper.GetString (v : Viper) (key : String) : String :=
  match v.override key with
  | some value => value
  | none => v.bound key

/-- Viper `GetBool(verboseFlag)`. -/
def Viper.GetBool (v : Viper) : Bool := v.verbose

/-- A store right after flag parsing: flag values only, nothing overridden. -/
def Viper.ofFlags (username password raddr : String) (verbose : Bool) : Viper :=
  { bound := fun k =>
      if k = apiUsernameFlag then username
      else if k = apiPasswordFlag then password
      else if k = raddrFlag then raddr
      else ""
    override := fun _ => none
    verbose := verbose }

/-! ## Remote service records -/

/-- Modelled from the spec: `wrtcmgr.Community` is declared in another package;
the spec gives it an `id` string, a `clients` integer and a `persistent` boolean. -/
structure Community where
  ID : String
  Clients : Int
  Persistent : Bool
  deriving DecidableEq, Repr

/-- Username and password as handed to `wrtcmgr.NewManager`. -/
structure Credentials where
  username : String
  password : String
  deriving DecidableEq, Repr

/-! ## Standard output as an `io.Writer` -/

/-- One `Write` call on the sink: the bytes offered, how many of them the sink
took, and the error it returned. -/
structure WriteCall where
  p : List UInt8
  n : Nat
  err : Option Error
  deriving DecidableEq, Repr

/-- The stream behind `os.Stdout`.  `respond` is the behaviour of the file
descriptor: given the earlier calls and the bytes offered now it tells how many
bytes are taken and which error, if any, is returned.  `calls` and `data` are
the calls made so far and the bytes that have reached the stream. -/
structure Sink where
  respond : List WriteCall → List UInt8 → Nat × Option Error
  calls : List WriteCall
  data : List UInt8

/-- Go `(*os.File).Write`: returns the number of bytes written, which never
exceeds the number offered, together with the error. -/
def Sink.Write (s : Sink) (p : List UInt8) : Sink × Nat × Option Error :=
  let r := s.respond s.calls p
  let n := min r.1 p.length
  ({ s with calls := s.calls ++ [⟨p, n, r.2⟩], data := s.data ++ p.take n }, n, r.2)

/-- A stream on which every write takes all bytes and returns no error. -/
def Sink.Reliable (s : Sink) : Prop :=
  ∀ (h : List WriteCall) (p : List UInt8), s.respond h p = (p.length, none)

/-- Some write on the stream returned an error or took fewer bytes than offered. -/
def Sink.Failed (s : Sink) : Prop :=
  ∃ c ∈ s.calls, c.err ≠ none ∨ c.n < c.p.length

/-- UTF-8 encoding of a string: the bytes of a Go string value. -/
def utf8 (s : String) : List UInt8 :=
  s.data.flatMap String.utf8EncodeChar

namespace bufio

/-- Go `bufio.defaultBufSize`. -/
def defaultBufSize : Nat := 4096

/-- Go `bufio.Writer`: `buf` is `b.buf[0:b.n]`, the bytes waiting in the buffer. -/
structure Writer where
  err : Option Error
  buf : List UInt8
  wr : Sink

/-- Go `bufio.NewWriter`. -/
def NewWriter (w : Sink) : Writer :=
  { err := none, buf := [], wr := w }

/-- Go `(*bufio.Writer).Available`. -/
def Writer.Available (b : Writer) : Nat :=
  defaultBufSize - b.buf.length

/-- Go `(*bufio.Writer).Flush`: hands the buffered bytes to the underlying
writer; a short write without error becomes `io.ErrShortWrite`; on error the
unwritten bytes stay in the buffer and the error sticks. -/
def Writer.Flush (b : Writer) : Writer × Option Error :=
  match b.err with
  | some e => (b, some e)
  | none =>
    if b.buf.length = 0 then (b, none)
    else
      let r := b.wr.Write b.buf
      let n := r.2.1
      let err := if n < b.buf.length ∧ r.2.2 = none then some Error.ErrShortWrite else r.2.2
      match err with
      | some e => ({ err := some e, buf := b.buf.drop n, wr := r.1 }, some e)
      | none => ({ err := none, buf := [], wr := r.1 }, none)

/-- Go `(*bufio.Writer).WriteByte`. -/
def Writer.WriteByte (b : Writer) (c : UInt8) : Writer × Option Error :=
  match b.err with
  | some e => (b, some e)
  | none =>
    if b.Available = 0 then
      match b.Flush with
      | (b1, some e) => (b1, some e)
      | (b1, none) => ({ b1 with buf := b1.buf ++ [c] }, none)
    else ({ b with buf := b.buf ++ [c] }, none)

/-- Go `(*bufio.Writer).WriteString`: while the string does not fit, fill the
buffer and flush; then copy the rest into the buffer.  Returns the number of
bytes consumed and the sticky error.  (Go releases that hand a string larger
than the buffer straight to the underlying writer when the buffer is empty
differ from this loop only in how the same bytes are grouped into writes.) -/
def Writer.WriteString (b : Writer) (s : List UInt8) : Writer × Nat × Option Error :=
  if _h : s.length > b.Available ∧ b.err = none then
    let n := min b.Available s.length
    let b1 : Writer := { b with buf := b.buf ++ s.take n }
    let b2 := b1.Flush.1
    let r := Writer.WriteString b2 (s.drop n)
    (r.1, n + r.2.1, r.2.2)
  else
    match b.err with
    | some e => (b, 0, some e)
    | none => ({ b with buf := b.buf ++ s }, s.length, none)
termination_by (s.length, if b.err = none ∧ b.Available = 0 then 1 else 0)
decreasing_by
  obtain ⟨hlen, herr⟩ := _h
  by_cases hav : b.Available = 0
  · have hn : b.Available ⊓ s.length = 0 := by simp [hav]
    have hbuf : b.buf.length ≠ 0 := by
      intro h0
      simp [Writer.Available, h0, defaultBufSize] at hav
    rw [hn]
    simp only [List.drop_zero, List.take_zero, List.append_nil]
    have hno : ¬ ((Writer.Flush ⟨b.err, b.buf, b.wr⟩).1.err = none ∧
        (Writer.Flush ⟨b.err, b.buf, b.wr⟩).1.Available = 0) := by
      unfold Writer.Flush
      simp only [herr, hbuf, if_false]
      split
      · simp
      · simp [Writer.Available, defaultBufSize]
    rw [if_neg hno, if_pos ⟨herr, hav⟩]
    exact Prod.Lex.right _ Nat.zero_lt_one
  · apply Prod.Lex.left
    have hpos : 0 < b.Available := Nat.pos_of_ne_zero hav
    have hle : b.Available ≤ s.length := Nat.le_of_lt hlen
    rw [List.length_drop, Nat.min_eq_left hle]
    omega

end bufio

namespace csv

/-- Go `csv.Writer` as `csv.NewWriter` leaves it: `Comma` is a comma and
`UseCRLF` is false.  The command never changes these two fields, so the
methods below are written for these values. -/
structure Writer where
  w : bufio.Writer

/-- Go `csv.NewWriter`. -/
def NewWriter (w : Sink) : Writer :=
  { w := bufio.NewWriter w }

/-- Go `(*csv.Writer).fieldNeedsQuotes` for `Comma = ','`: the empty field is
written bare; the field backslash-dot is quoted; a field holding a comma, a
double quote, CR or LF is quoted; else a field is quoted exactly when its first
rune is white space. -/
def fieldNeedsQuotes (field : String) : Bool :=
  if field = "" then false
  else if field = "\\." then true
  else if field.data.any (fun c => c == '\n' || c == '\r' || c == '"' || c == ',') then true
  else
    match field.data with
    | [] => false
    | r1 :: _ => IsSpace r1

/-- The characters that the quoted-field loop of `Write` looks for with
`strings.IndexAny(field, "\"\r\n")`. -/
def isSpecial (c : Char) : Bool :=
  c == '"' || c == '\r' || c == '\n'

/-- The `switch field[0]` of the quoted branch of `Write`, for `UseCRLF` false: a
double quote is written twice, CR and LF are written as they are, and nothing
is written for any other character. -/
def writeSpecial (b : bufio.Writer) (c : Char) : bufio.Writer × Option Error :=
  if c = '"' then
    let x := b.WriteString (utf8 "\"\"")
    (x.1, x.2.2)
  else if c = '\r' then b.WriteByte 0x0D
  else if c = '\n' then b.WriteByte 0x0A
  else (b, none)

/-- The loop `for len(field) > 0` in the quoted branch of `Write`: copy the
text before the next special character, then encode that character. -/
def writeQuoted (b : bufio.Writer) (field : List Char) : bufio.Writer × Option Error :=
  if field.isEmpty then (b, none)
  else
    match b.WriteString (utf8 ⟨field.takeWhile (fun c => !isSpecial c)⟩) with
    | (b1, _, some e) => (b1, some e)
    | (b1, _, none) =>
      match _hrest : field.dropWhile (fun c => !isSpecial c) with
      | [] => (b1, none)
      | c :: rest =>
        match writeSpecial b1 c with
        | (b2, some e) => (b2, some e)
        | (b2, none) => writeQuoted b2 rest
termination_by field.length
decreasing_by
  have hle := (List.dropWhile_sublist (fun c => !isSpecial c) (l := field)).length_le
  rw [_hrest] at hle
  simp only [List.length_cons] at hle ⊢
  omega

/-- One field of a record in `Write`: bare through `WriteString`, or between
double quotes through the quoted-field loop. -/
def writeField (b : bufio.Writer) (field : String) : bufio.Writer × Option Error :=
  if !fieldNeedsQuotes field then
    let x := b.WriteString (utf8 field)
    (x.1, x.2.2)
  else
    match b.WriteByte 0x22 with
    | (b1, some e) => (b1, some e)
    | (b1, none) =>
      match writeQuoted b1 field.data with
      | (b2, some e) => (b2, some e)
      | (b2, none) => b2.WriteByte 0x22

/-- The loop `for n, field := range record` of `Write`: a comma before every
field but the first, then the field; the first error ends the loop. -/
def writeFields (b : bufio.Writer) (n : Nat) : List String → bufio.Writer × Option Error
  | [] => (b, none)
  | field :: rest =>
    let r0 : bufio.Writer × Option Error := if n > 0 then b.WriteByte 0x2C else (b, none)
    match r0 with
    | (b0, some e) => (b0, some e)
    | (b0, none) =>
      match writeField b0 field with
      | (b1, some e) => (b1, some e)
      | (b1, none) => writeFields b1 (n + 1) rest

/-- Go `(*csv.Writer).Write`: the fields separated by commas, then a line feed.
The delimiter check at its start always passes for a comma. -/
def Writer.Write (w : Writer) (record : List String) : Writer × Option Error :=
  match writeFields w.w 0 record with
  | (b1, some e) => ({ w := b1 }, some e)
  | (b1, none) =>
    let r := b1.WriteByte 0x0A
    ({ w := r.1 }, r.2)

/-- Go `(*csv.Writer).Flush`: flushes the buffered writer and drops the error that
flush returns (`Error` would report it; the command does not call it). -/
def Writer.Flush (w : Writer) : Writer :=
  { w := w.w.Flush.1 }

end csv

/-! ## Formatting with `fmt.Sprintf("%v", ...)` -/

/-- Go `fmt.Sprintf("%v", i)` for an integer: decimal digits, with a minus sign
in front of a negative number. -/
def FormatInt (i : Int) : String :=
  match i with
  | .ofNat m => Nat.repr m
  | .negSucc m => "-" ++ Nat.repr (m + 1)

/-- Go `fmt.Sprintf("%v", b)` for a boolean. -/
def FormatBool (b : Bool) : String :=
  if b then "true" else "false"

/-! ## The surroundings of one run -/

/-- Modelled from the spec: `wrtcmgr.Manager` is declared in another package; a
manager is bound to the remote address and the credentials it was built with. -/
structure Manager where
  raddr : String
  username : String
  password : String
  deriving DecidableEq, Repr

/-- The call `wrtcmgr.NewManager(raddr, username, password, ctx)`. -/
def NewManager (raddr username password : String) : Manager :=
  { raddr := raddr, username := username, password := password }

/-- Everything outside the file that one run of the command meets.

* `API_USERNAME`, `API_PASSWORD`: what `os.Getenv` returns for these names
  (the empty string when the variable is unset).
* `bindPreRunE`, `bindRunE`: what `viper.BindPFlags` returns in each callback.
* `ListCommunities`: the answer of the remote service to the one call
  `manager.ListCommunities()`.
* `Stdout`: standard output before the run. -/
structure World where
  API_USERNAME : String
  API_PASSWORD : String
  bindPreRunE : Option Error
  bindRunE : Option Error
  ListCommunities : Manager → Except Error (List Community)
  Stdout : Sink

/-- What one run leaves behind: the error returned to the command framework
(`none` is success), the lines given to `log.Println`, the managers built, the
managers on which `ListCommunities` was called, and standard output. -/
structure Outcome where
  err : Option Error
  log : List String
  managers : List Manager
  listCalls : List Manager
  stdout : Sink

/-! ## `PreRunE` -/

/-- Lines 31–45: each non-empty environment variable is stored over the key of
its flag; with the verbose flag on, a line is logged for each. -/
def applyEnv (w : World) (v : Viper) : Viper × List String :=
  let s1 : Viper × List String :=
    if w.API_USERNAME ≠ "" then
      (v.Set apiUsernameFlag w.API_USERNAME,
        if v.GetBool then ["Using username from API_USERNAME env variable"] else [])
    else (v, [])
  if w.API_PASSWORD ≠ "" then
    (s1.1.Set apiPasswordFlag w.API_PASSWORD,
      s1.2 ++ (if s1.1.GetBool then ["Using password from API_PASSWORD env variable"] else []))
  else s1

/-- The callback `PreRunE`: the environment overrides, then the result of
binding the flags. -/
def PreRunE (w : World) (v : Viper) : Viper × List String × Option Error :=
  let s := applyEnv w v
  (s.1, s.2, w.bindPreRunE)

/-! ## `RunE` -/

/-- Lines 54–60 with the reads of lines 67–68: the password is checked first,
then the username, each for being empty after `strings.TrimSpace`; the values
passed on are the stored strings themselves. -/
def checkCredentials (v : Viper) : Except Error Credentials :=
  if TrimSpace (v.GetString apiPasswordFlag) = "" then
    .error Error.errMissingAPIPassword
  else if TrimSpace (v.GetString apiUsernameFlag) = "" then
    .error Error.errMissingAPIUsername
  else
    .ok { username := v.GetString apiUsernameFlag, password := v.GetString apiPasswordFlag }

/-- The record written for one community (line 85). -/
def communityRecord (c : Community) : List String :=
  [c.ID, FormatInt c.Clients, FormatBool c.Persistent]

/-- Lines 84–88: one `Write` per community, in order; the first error is
returned at once. -/
def writeCommunities (w : csv.Writer) : List Community → csv.Writer × Option Error
  | [] => (w, none)
  | community :: rest =>
    match w.Write (communityRecord community) with
    | (w1, some e) => (w1, some e)
    | (w1, none) => writeCommunities w1 rest

/-- Lines 80–90: the header record, then the communities. -/
def writeAll (w : csv.Writer) (c : List Community) : csv.Writer × Option Error :=
  match w.Write ["id", "clients", "persistent"] with
  | (w1, some e) => (w1, some e)
  | (w1, none) => writeCommunities w1 c

/-- Lines 77–90: a CSV writer on standard output, the deferred `Flush`, and the
records.  The deferred call runs when the function returns, after the return
value is fixed, so the error of the function is the one of the writes. -/
def render (c : List Community) (stdout : Sink) : Option Error × Sink :=
  let r := writeAll (csv.NewWriter stdout) c
  (r.2, r.1.Flush.w.wr)

/-- The callback `RunE`. -/
def RunE (w : World) (v : Viper) : Outcome :=
  match w.bindRunE with
  | some e => { err := some e, log := [], managers := [], listCalls := [], stdout := w.Stdout }
  | none =>
    match checkCredentials v with
    | .error e => { err := some e, log := [], managers := [], listCalls := [], stdout := w.Stdout }
    | .ok cred =>
      let manager := NewManager (v.GetString raddrFlag) cred.username cred.password
      match w.ListCommunities manager with
      | .error e =>
        { err := some e, log := [], managers := [manager], listCalls := [manager],
          stdout := w.Stdout }
      | .ok c =>
        let r := render c w.Stdout
        { err := r.1, log := [], managers := [manager], listCalls := [manager], stdout := r.2 }

/-- One invocation of the command: the framework runs `PreRunE` and, when it
returns no error, `RunE` on the store that `PreRunE` left. -/
def Execute (w : World) (v : Viper) : Outcome :=
  let pre := PreRunE w v
  match pre.2.2 with
  | some e => { err := some e, log := pre.2.1, managers := [], listCalls := [], stdout := w.Stdout }
  | none =>
    let out := RunE w pre.1
    { out with log := pre.2.1 ++ out.log }

/-- Credential resolution: the environment overrides of `PreRunE` followed by
the checks of `RunE`. -/
def resolve (w : World) (v : Viper) : Except Error Credentials :=
  checkCredentials (applyEnv w v).1

/-- The effective value of a credential key: the environment string when it is
not empty, else the flag-bound value. -/
def effective (env : String) (v : Viper) (key : String) : String :=
  if env ≠ "" then env else v.GetString key

/-! ## The CSV text the spec describes -/

/-- One data line as the spec words it: id, clients in decimal, persistent as
true or false, separated by commas and ended by a line feed. -/
def specLine (c : Community) : String :=
  c.ID ++ "," ++ FormatInt c.Clients ++ "," ++ FormatBool c.Persistent ++ "\n"

/-- The data lines as the spec words them: one line per community, in the order
given. -/
def specLines : List Community → String
  | [] => ""
  | c :: rest => specLine c ++ specLines rest

/-- The whole text as the spec words it: the header line, then the data lines. -/
def specCSV (cs : List Community) : String :=
  "id,clients,persistent\n" ++ specLines cs

/-! ## The bytes of a record, and what an operation adds to the stream -/

namespace csv

/-- The body of a quoted field: every double quote is doubled, every other
character is kept. -/
def quoteBody : List Char → List Char
  | [] => []
  | c :: rest => if c = '"' then '"' :: '"' :: quoteBody rest else c :: quoteBody rest

/-- The bytes `Write` produces for one field. -/
def encodeField (field : String) : List UInt8 :=
  if fieldNeedsQuotes field then [0x22] ++ utf8 ⟨quoteBody field.data⟩ ++ [0x22]
  else utf8 field

/-- The bytes `Write` produces for the fields of a record, the first of which
has index `n`. -/
def encodeFields (n : Nat) : List String → List UInt8
  | [] => []
  | field :: rest =>
    (if n > 0 then [0x2C] else []) ++ encodeField field ++ encodeFields (n + 1) rest

/-- The bytes `Write` produces for a record: the fields, then a line feed. -/
def encodeRecord (record : List String) : List UInt8 :=
  encodeFields 0 record ++ [0x0A]

end csv

/-- The bytes of the complete CSV text of a community list: the header record,
then one record per community. -/
def csvBytes (cs : List Community) : List UInt8 :=
  csv.encodeRecord ["id", "clients", "persistent"] ++
    cs.flatMap (fun c => csv.encodeRecord (communityRecord c))

namespace bufio

/-- The bytes a buffered writer has been given and not lost: those that reached
the underlying stream followed by those still in the buffer. -/
def Writer.stream (b : Writer) : List UInt8 :=
  b.wr.data ++ b.buf

/-- The effect of an operation that was asked to append `req` to writer `b`, left
writer `b1` and returned `e`.  The returned error is the sticky one; the
underlying stream keeps its behaviour and only grows; the bytes given to the
writer grow by an initial part of `req`, all of it when no error is returned;
on a reliable stream no error arises; and when `req` fits into the free part of
the buffer it is appended there and the underlying stream is not touched. -/
def Emits (b b1 : Writer) (e : Option Error) (req : List UInt8) : Prop :=
  b1.err = e ∧
  b1.wr.respond = b.wr.respond ∧
  b.wr.data <+: b1.wr.data ∧
  (∃ t, t <+: req ∧ b1.stream = b.stream ++ t ∧ (e = none → t = req)) ∧
  (b.wr.Reliable → b.err = none → e = none) ∧
  (b.err = none → b.buf.length + req.length ≤ defaultBufSize →
    e = none ∧ b1 = { b with buf := b.buf ++ req })

end bufio

/-! ## Concrete surroundings used in examples -/

/-- A standard output that takes every byte offered. -/
def reliableStdout : Sink :=
  { respond := fun _ p => (p.length, none), calls := [], data := [] }

/-- A standard output whose descriptor is closed: every write is refused. -/
def closedStdout : Sink :=
  { respond := fun _ _ => (0, some (Error.external "write /dev/stdout: file already closed")),
    calls := [], data := [] }

/-- A world without binding errors: the two environment strings, the answer of
the remote service and standard output. -/
def World.of (envUsername envPassword : String) (answer : Except Error (List Community))
    (stdout : Sink) : World :=
  { API_USERNAME := envUsername, API_PASSWORD := envPassword, bindPreRunE := none,
    bindRunE := none, ListCommunities := fun _ => answer, Stdout := stdout }

/-- Two communities, the example of the spec. -/
def exampleCommunities : List Community :=
  [{ ID := "a", Clients := 3, Persistent := true }, { ID := "b", Clients := 0, Persistent := false }]

/-! ## Facts about the configuration store and trimming -/

theorem GetString_Set_same (v : Viper) (key value : String) :
    (v.Set key value).GetString key = value := by
  simp [Viper.GetString, Viper.Set]

theorem GetString_Set_other (v : Viper) (key value k : String) (h : k ≠ key) :
    (v.Set key value).GetString k = v.GetString k := by
  simp [Viper.GetString, Viper.Set, h]

theorem username_ne_password : apiUsernameFlag ≠ apiPasswordFlag := by decide

theorem raddr_ne_username : raddrFlag ≠ apiUsernameFlag := by decide

theorem raddr_ne_password : raddrFlag ≠ apiPasswordFlag := by decide

/-- After the overrides, the username key holds the effective username. -/
theorem GetString_applyEnv_username (w : World) (v : Viper) :
    (applyEnv w v).1.GetString apiUsernameFlag = effective w.API_USERNAME v apiUsernameFlag := by
  unfold applyEnv effective
  by_cases hu : w.API_USERNAME = "" <;> by_cases hp : w.API_PASSWORD = "" <;>
    simp [hu, hp, GetString_Set_same, GetString_Set_other, username_ne_password]

/-- After the overrides, the password key holds the effective password. -/
theorem GetString_applyEnv_password (w : World) (v : Viper) :
    (applyEnv w v).1.GetString apiPasswordFlag = effective w.API_PASSWORD v apiPasswordFlag := by
  unfold applyEnv effective
  by_cases hu : w.API_USERNAME = "" <;> by_cases hp : w.API_PASSWORD = "" <;>
    simp [hu, hp, GetString_Set_same, GetString_Set_other, username_ne_password.symm]

/-- The overrides leave the remote address alone. -/
theorem GetString_applyEnv_raddr (w : World) (v : Viper) :
    (applyEnv w v).1.GetString raddrFlag = v.GetString raddrFlag := by
  unfold applyEnv
  by_cases hu : w.API_USERNAME = "" <;> by_cases hp : w.API_PASSWORD = "" <;>
    simp [hu, hp, GetString_Set_other, raddr_ne_username, raddr_ne_password]

/-- Trimming leaves nothing exactly when every character is white space. -/
theorem TrimSpace_eq_empty_iff (s : String) :
    TrimSpace s = "" ↔ ∀ c ∈ s.data, IsSpace c = true := by
  have hmk : TrimSpace s = "" ↔
      ((s.data.dropWhile IsSpace).reverse.dropWhile IsSpace).reverse = [] := by
    unfold TrimSpace
    constructor
    · intro h
      exact congrArg String.data h
    · intro h
      rw [h]
  rw [hmk, List.reverse_eq_nil_iff, List.dropWhile_eq_nil_iff]
  constructor
  · intro h
    have hall : ∀ x ∈ s.data.dropWhile IsSpace, IsSpace x = true := by
      intro x hx
      exact h x (List.mem_reverse.mpr hx)
    have hnil : s.data.dropWhile IsSpace = [] := by
      by_contra hne
      have hhead := List.head_dropWhile_not IsSpace s.data hne
      have := hall _ (List.head_mem hne)
      simp [this] at hhead
    exact List.dropWhile_eq_nil_iff.mp hnil
  · intro h x hx
    have hnil : s.data.dropWhile IsSpace = [] := List.dropWhile_eq_nil_iff.mpr h
    rw [hnil] at hx
    simp at hx

/-- A string that trims to something is not empty. -/
theorem ne_empty_of_TrimSpace_ne (s : String) (h : TrimSpace s ≠ "") : s ≠ "" := by
  intro hs
  apply h
  rw [hs]
  decide

/-- Resolution written out in terms of the effective values. -/
theorem resolve_eq (w : World) (v : Viper) :
    resolve w v =
      if TrimSpace (effective w.API_PASSWORD v apiPasswordFlag) = "" then
        .error Error.errMissingAPIPassword
      else if TrimSpace (effective w.API_USERNAME v apiUsernameFlag) = "" then
        .error Error.errMissingAPIUsername
      else
        .ok { username := effective w.API_USERNAME v apiUsernameFlag,
              password := effective w.API_PASSWORD v apiPasswordFlag } := by
  unfold resolve checkCredentials
  rw [GetString_applyEnv_username, GetString_applyEnv_password]

/-- When resolution fails, the run builds no manager, calls nothing and leaves
standard output as it was. -/
theorem Execute_of_resolve_error (w : World) (v : Viper) (e : Error)
    (h : resolve w v = .error e) :
    (Execute w v).managers = [] ∧ (Execute w v).listCalls = [] ∧
      (Execute w v).stdout = w.Stdout ∧ (Execute w v).err ≠ none ∧
      (w.bindPreRunE = none → w.bindRunE = none → (Execute w v).err = some e) := by
  unfold resolve at h
  cases hpre : w.bindPreRunE with
  | some e1 => simp [Execute, PreRunE, hpre]
  | none =>
    cases hrun : w.bindRunE with
    | some e2 => simp [Execute, PreRunE, hpre, RunE, hrun]
    | none => simp [Execute, PreRunE, hpre, RunE, hrun, h]

/-- When both bindings and resolution succeed, exactly one manager is built, from
the stored remote address and the resolved credentials, and it is the one called. -/
theorem Execute_of_resolve_ok (w : World) (v : Viper) (c : Credentials)
    (hpre : w.bindPreRunE = none) (hrun : w.bindRunE = none) (h : resolve w v = .ok c) :
    (Execute w v).managers = [NewManager (v.GetString raddrFlag) c.username c.password] ∧
      (Execute w v).listCalls = [NewManager (v.GetString raddrFlag) c.username c.password] := by
  unfold resolve at h
  cases hl : w.ListCommunities (NewManager (v.GetString raddrFlag) c.username c.password) <;>
    simp [Execute, PreRunE, hpre, RunE, hrun, h, GetString_applyEnv_raddr, hl]

/-! ## Claims about credential resolution -/

/-- C1, as stated, fails: with the environment variable `API_PASSWORD` set to a
single space (a non-empty string), flag username `admin` and flag password
`secret`, resolution does not return the environment string; it fails with the
password-missing error and no manager is built. -/
theorem env_override_blank_rejected :
    (World.of "" " " (.ok []) reliableStdout).API_PASSWORD ≠ "" ∧
      resolve (World.of "" " " (.ok []) reliableStdout)
          (Viper.ofFlags "admin" "secret" "https://example.org/" false) =
        .error Error.errMissingAPIPassword ∧
      (Execute (World.of "" " " (.ok []) reliableStdout)
          (Viper.ofFlags "admin" "secret" "https://example.org/" false)).managers = [] := by
  have hres : resolve (World.of "" " " (.ok []) reliableStdout)
      (Viper.ofFlags "admin" "secret" "https://example.org/" false) =
        .error Error.errMissingAPIPassword := by
    rw [resolve_eq]
    exact if_pos (by decide)
  exact ⟨by decide, hres, (Execute_of_resolve_error _ _ _ hres).1⟩

/-- C1, amended: a non-empty environment override replaces the flag-bound value
of its key whatever that value and the verbosity are, so a successful resolution
returns the environment string; and resolution does succeed, handing that string
to the manager, as soon as both effective credentials contain a character that
is not white space. -/
theorem env_override_wins (w : World) (v : Viper) :
    (w.API_USERNAME ≠ "" →
      (applyEnv w v).1.GetString apiUsernameFlag = w.API_USERNAME ∧
      (∀ c, resolve w v = .ok c → c.username = w.API_USERNAME) ∧
      (TrimSpace w.API_USERNAME ≠ "" →
        TrimSpace (effective w.API_PASSWORD v apiPasswordFlag) ≠ "" →
        resolve w v = .ok { username := w.API_USERNAME,
                            password := effective w.API_PASSWORD v apiPasswordFlag } ∧
        (w.bindPreRunE = none → w.bindRunE = none →
          (Execute w v).managers = [NewManager (v.GetString raddrFlag) w.API_USERNAME
            (effective w.API_PASSWORD v apiPasswordFlag)]))) ∧
    (w.API_PASSWORD ≠ "" →
      (applyEnv w v).1.GetString apiPasswordFlag = w.API_PASSWORD ∧
      (∀ c, resolve w v = .ok c → c.password = w.API_PASSWORD) ∧
      (TrimSpace w.API_PASSWORD ≠ "" →
        TrimSpace (effective w.API_USERNAME v apiUsernameFlag) ≠ "" →
        resolve w v = .ok { username := effective w.API_USERNAME v apiUsernameFlag,
                            password := w.API_PASSWORD } ∧
        (w.bindPreRunE = none → w.bindRunE = none →
          (Execute w v).managers = [NewManager (v.GetString raddrFlag)
            (effective w.API_USERNAME v apiUsernameFlag) w.API_PASSWORD]))) := by
  constructor
  · intro hne
    have heff : effective w.API_USERNAME v apiUsernameFlag = w.API_USERNAME := by
      simp [effective, hne]
    refine ⟨by rw [GetString_applyEnv_username, heff], ?_, ?_⟩
    · intro c hc
      rw [resolve_eq] at hc
      split at hc
      · cases hc
      · split at hc
        · cases hc
        · cases hc
          exact heff
    · intro hu hp
      have hres : resolve w v =
          .ok (Credentials.mk w.API_USERNAME (effective w.API_PASSWORD v apiPasswordFlag)) := by
        rw [resolve_eq, heff, if_neg hp, if_neg hu]
      exact ⟨hres, fun hpre hrun => (Execute_of_resolve_ok w v _ hpre hrun hres).1⟩
  · intro hne
    have heff : effective w.API_PASSWORD v apiPasswordFlag = w.API_PASSWORD := by
      simp [effective, hne]
    refine ⟨by rw [GetString_applyEnv_password, heff], ?_, ?_⟩
    · intro c hc
      rw [resolve_eq] at hc
      split at hc
      · cases hc
      · split at hc
        · cases hc
        · cases hc
          exact heff
    · intro hp hu
      have hres : resolve w v =
          .ok (Credentials.mk (effective w.API_USERNAME v apiUsernameFlag) w.API_PASSWORD) := by
        rw [resolve_eq, heff, if_neg hp, if_neg hu]
      exact ⟨hres, fun hpre hrun => (Execute_of_resolve_ok w v _ hpre hrun hres).1⟩

/-- C1, amended, at a concrete input: environment username `alice` and
environment password `s3cret` win over the flags `admin` and `flagpw`, with the
verbose flag on. -/
theorem env_override_wins_witness :
    resolve (World.of "alice" "s3cret" (.ok []) reliableStdout)
        (Viper.ofFlags "admin" "flagpw" "https://example.org/" true) =
      .ok { username := "alice", password := "s3cret" } ∧
    (Execute (World.of "alice" "s3cret" (.ok []) reliableStdout)
        (Viper.ofFlags "admin" "flagpw" "https://example.org/" true)).managers =
      [NewManager "https://example.org/" "alice" "s3cret"] := by
  have h := (env_override_wins (World.of "alice" "s3cret" (.ok []) reliableStdout)
    (Viper.ofFlags "admin" "flagpw" "https://example.org/" true)).1 (by decide)
  have h2 := h.2.2 (by decide) (by decide)
  exact ⟨h2.1, h2.2 rfl rfl⟩

/-- C2, as stated, fails: with no environment override, flag username `admin`
and flag password a single space (both non-empty), resolution does not succeed;
it fails with the password-missing error. -/
theorem flag_blank_rejected :
    (World.of "" "" (.ok []) reliableStdout).API_USERNAME = "" ∧
      (World.of "" "" (.ok []) reliableStdout).API_PASSWORD = "" ∧
      (Viper.ofFlags "admin" " " "https://example.org/" false).GetString apiUsernameFlag ≠ "" ∧
      (Viper.ofFlags "admin" " " "https://example.org/" false).GetString apiPasswordFlag ≠ "" ∧
      resolve (World.of "" "" (.ok []) reliableStdout)
          (Viper.ofFlags "admin" " " "https://example.org/" false) =
        .error Error.errMissingAPIPassword := by
  refine ⟨rfl, rfl, by decide, by decide, ?_⟩
  rw [resolve_eq]
  exact if_pos (by decide)

/-- C2, amended: when both environment overrides are empty and both flag values
contain a character that is not white space, resolution succeeds and returns
exactly the flag username and the flag password, and these reach the manager. -/
theorem flags_returned_without_env (w : World) (v : Viper)
    (hu : w.API_USERNAME = "") (hp : w.API_PASSWORD = "")
    (hfu : TrimSpace (v.GetString apiUsernameFlag) ≠ "")
    (hfp : TrimSpace (v.GetString apiPasswordFlag) ≠ "") :
    resolve w v = .ok { username := v.GetString apiUsernameFlag,
                        password := v.GetString apiPasswordFlag } ∧
      (w.bindPreRunE = none → w.bindRunE = none →
        (Execute w v).managers = [NewManager (v.GetString raddrFlag)
          (v.GetString apiUsernameFlag) (v.GetString apiPasswordFlag)]) := by
  have hres : resolve w v =
      .ok (Credentials.mk (v.GetString apiUsernameFlag) (v.GetString apiPasswordFlag)) := by
    rw [resolve_eq]
    simp only [effective, hu, hp, ne_eq, not_true_eq_false, if_false]
    rw [if_neg hfp, if_neg hfu]
  exact ⟨hres, fun hpre hrun => (Execute_of_resolve_ok w v _ hpre hrun hres).1⟩

/-- C2, amended, at a concrete input: flags `admin` and `secret`, no environment. -/
theorem flags_returned_without_env_witness :
    resolve (World.of "" "" (.ok []) reliableStdout)
        (Viper.ofFlags "admin" "secret" "https://example.org/" false) =
      .ok { username := "admin", password := "secret" } :=
  (flags_returned_without_env (World.of "" "" (.ok []) reliableStdout)
    (Viper.ofFlags "admin" "secret" "https://example.org/" false) rfl rfl
    (by decide) (by decide)).1

/-- C3: when the effective password (environment override if non-empty, else the
flag value) is empty after trimming, resolution fails with `errMissingAPIPassword`
whatever the username is, and that is the error the run returns. -/
theorem password_missing_first (w : World) (v : Viper)
    (h : TrimSpace (effective w.API_PASSWORD v apiPasswordFlag) = "") :
    resolve w v = .error Error.errMissingAPIPassword ∧
      (w.bindPreRunE = none → w.bindRunE = none →
        (Execute w v).err = some Error.errMissingAPIPassword) := by
  have hres : resolve w v = .error Error.errMissingAPIPassword := by
    rw [resolve_eq, if_pos h]
  exact ⟨hres, (Execute_of_resolve_error w v _ hres).2.2.2.2⟩

/-- C3 at a concrete input: username and password both empty give the
password-missing error, not the username-missing one. -/
theorem password_missing_first_witness :
    resolve (World.of "" "" (.ok []) reliableStdout)
        (Viper.ofFlags "" "" "https://example.org/" false) =
      .error Error.errMissingAPIPassword ∧
    (Execute (World.of "" "" (.ok []) reliableStdout)
        (Viper.ofFlags "" "" "https://example.org/" false)).err =
      some Error.errMissingAPIPassword := by
  have h := password_missing_first (World.of "" "" (.ok []) reliableStdout)
    (Viper.ofFlags "" "" "https://example.org/" false) (by decide)
  exact ⟨h.1, h.2 rfl rfl⟩

/-- C4: when the effective password is not empty after trimming and the effective
username is, resolution fails with `errMissingAPIUsername`, and that is the
error the run returns. -/
theorem username_missing_second (w : World) (v : Viper)
    (hp : TrimSpace (effective w.API_PASSWORD v apiPasswordFlag) ≠ "")
    (hu : TrimSpace (effective w.API_USERNAME v apiUsernameFlag) = "") :
    resolve w v = .error Error.errMissingAPIUsername ∧
      (w.bindPreRunE = none → w.bindRunE = none →
        (Execute w v).err = some Error.errMissingAPIUsername) := by
  have hres : resolve w v = .error Error.errMissingAPIUsername := by
    rw [resolve_eq, if_neg hp, if_pos hu]
  exact ⟨hres, (Execute_of_resolve_error w v _ hres).2.2.2.2⟩

/-- C4 at a concrete input: password `secret` from the environment, username
flag made of blanks. -/
theorem username_missing_second_witness :
    resolve (World.of "" "secret" (.ok []) reliableStdout)
        (Viper.ofFlags " \t" "" "https://example.org/" false) =
      .error Error.errMissingAPIUsername ∧
    (Execute (World.of "" "secret" (.ok []) reliableStdout)
        (Viper.ofFlags " \t" "" "https://example.org/" false)).err =
      some Error.errMissingAPIUsername := by
  have h := username_missing_second (World.of "" "secret" (.ok []) reliableStdout)
    (Viper.ofFlags " \t" "" "https://example.org/" false) (by decide) (by decide)
  exact ⟨h.1, h.2 rfl rfl⟩

/-- Trimming leaves something exactly when some character is not white space. -/
theorem TrimSpace_ne_empty_iff (s : String) :
    TrimSpace s ≠ "" ↔ ∃ ch ∈ s.data, IsSpace ch = false := by
  rw [Ne, TrimSpace_eq_empty_iff]
  push_neg
  constructor
  · rintro ⟨c, hc, hn⟩
    exact ⟨c, hc, by simpa using hn⟩
  · rintro ⟨c, hc, hn⟩
    exact ⟨c, hc, by simp [hn]⟩

/-- Credentials that pass the checks are not blank. -/
theorem checkCredentials_ok (v : Viper) (c : Credentials) (h : checkCredentials v = .ok c) :
    c.username = v.GetString apiUsernameFlag ∧ c.password = v.GetString apiPasswordFlag ∧
      TrimSpace c.username ≠ "" ∧ TrimSpace c.password ≠ "" := by
  unfold checkCredentials at h
  split at h
  · cases h
  · split at h
    · cases h
    · cases h
      exact ⟨rfl, rfl, by assumption, by assumption⟩

/-- The verbose flag plays no part in `RunE`. -/
theorem RunE_verbose (w : World) (bound : String → String) (override : String → Option String)
    (x y : Bool) : RunE w (Viper.mk bound override x) = RunE w (Viper.mk bound override y) := rfl

/-- The verbose flag changes only the lines logged by the overrides. -/
theorem applyEnv_verbose (w : World) (bound : String → String)
    (override : String → Option String) :
    ∃ o, (applyEnv w (Viper.mk bound override true)).1 = Viper.mk bound o true ∧
      (applyEnv w (Viper.mk bound override false)).1 = Viper.mk bound o false ∧
      (applyEnv w (Viper.mk bound override false)).2 = [] ∧
      ∀ l ∈ (applyEnv w (Viper.mk bound override true)).2,
        l = "Using username from API_USERNAME env variable" ∨
        l = "Using password from API_PASSWORD env variable" := by
  unfold applyEnv
  by_cases hu : w.API_USERNAME = "" <;> by_cases hp : w.API_PASSWORD = "" <;>
    simp [hu, hp, Viper.Set, Viper.GetBool]

/-- C10: trimming serves only the emptiness test.  Resolution succeeds exactly
when the effective password and the effective username each hold a character
that is not white space, and then the credentials returned, and handed to the
manager, are the effective strings themselves, untrimmed. -/
theorem trimming_only_tests_emptiness (w : World) (v : Viper) :
    ((∃ c, resolve w v = .ok c) ↔
      (∃ ch ∈ (effective w.API_PASSWORD v apiPasswordFlag).data, IsSpace ch = false) ∧
      (∃ ch ∈ (effective w.API_USERNAME v apiUsernameFlag).data, IsSpace ch = false)) ∧
    (∀ c, resolve w v = .ok c →
      c.username = effective w.API_USERNAME v apiUsernameFlag ∧
      c.password = effective w.API_PASSWORD v apiPasswordFlag ∧
      (w.bindPreRunE = none → w.bindRunE = none →
        (Execute w v).managers = [NewManager (v.GetString raddrFlag)
          (effective w.API_USERNAME v apiUsernameFlag)
          (effective w.API_PASSWORD v apiPasswordFlag)])) := by
  constructor
  · rw [← TrimSpace_ne_empty_iff, ← TrimSpace_ne_empty_iff, resolve_eq]
    constructor
    · rintro ⟨c, hc⟩
      split at hc
      · cases hc
      · split at hc
        · cases hc
        · exact ⟨by assumption, by assumption⟩
    · rintro ⟨hp, hu⟩
      rw [if_neg hp, if_neg hu]
      exact ⟨_, rfl⟩
  · intro c hc
    have h := checkCredentials_ok _ c hc
    rw [GetString_applyEnv_username, GetString_applyEnv_password] at h
    refine ⟨h.1, h.2.1, fun hpre hrun => ?_⟩
    rw [← h.1, ← h.2.1]
    exact (Execute_of_resolve_ok w v c hpre hrun hc).1

/-- C10 at a concrete input: the password flag `  pw  ` passes the test and
reaches the manager with its blanks. -/
theorem trimming_only_tests_emptiness_witness :
    (Execute (World.of "" "" (.ok []) reliableStdout)
        (Viper.ofFlags "admin" "  pw  " "https://example.org/" false)).managers =
      [NewManager "https://example.org/" "admin" "  pw  "] := by
  have h := trimming_only_tests_emptiness (World.of "" "" (.ok []) reliableStdout)
    (Viper.ofFlags "admin" "  pw  " "https://example.org/" false)
  obtain ⟨c, hc⟩ := h.1.mpr ⟨⟨'p', by decide, by decide⟩, ⟨'a', by decide, by decide⟩⟩
  exact (h.2 c hc).2.2 rfl rfl

/-- C6: a manager is built, and `ListCommunities` called, only when resolution
has succeeded, at most once, and with a username and a password that are not
empty; when resolution fails no manager is built, no call is made, the run
returns an error and standard output is untouched. -/
theorem manager_only_after_resolution (w : World) (v : Viper) :
    (∀ m ∈ (Execute w v).managers ++ (Execute w v).listCalls,
      ∃ c, resolve w v = .ok c ∧
        m = NewManager (v.GetString raddrFlag) c.username c.password ∧
        m.username ≠ "" ∧ m.password ≠ "") ∧
    (Execute w v).managers.length ≤ 1 ∧ (Execute w v).listCalls.length ≤ 1 ∧
    (∀ e, resolve w v = .error e →
      (Execute w v).managers = [] ∧ (Execute w v).listCalls = [] ∧
      (Execute w v).stdout = w.Stdout ∧ (Execute w v).err ≠ none) := by
  refine ⟨?_, ?_, ?_, ?_⟩
  · intro m hm
    cases hres : resolve w v with
    | error e =>
      have h := Execute_of_resolve_error w v e hres
      rw [h.1, h.2.1] at hm
      simp at hm
    | ok c =>
      have hc := checkCredentials_ok _ c hres
      refine ⟨c, rfl, ?_⟩
      cases hpre : w.bindPreRunE with
      | some e1 => simp [Execute, PreRunE, hpre] at hm
      | none =>
        cases hrun : w.bindRunE with
        | some e2 => simp [Execute, PreRunE, hpre, RunE, hrun] at hm
        | none =>
          have h := Execute_of_resolve_ok w v c hpre hrun hres
          rw [h.1, h.2] at hm
          have hm2 : m = NewManager (v.GetString raddrFlag) c.username c.password := by
            simpa using hm
          subst hm2
          exact ⟨rfl, ne_empty_of_TrimSpace_ne _ hc.2.2.1, ne_empty_of_TrimSpace_ne _ hc.2.2.2⟩
  · unfold Execute PreRunE RunE
    repeat (first | split | simp)
  · unfold Execute PreRunE RunE
    repeat (first | split | simp)
  · intro e he
    have h := Execute_of_resolve_error w v e he
    exact ⟨h.1, h.2.1, h.2.2.1, h.2.2.2.1⟩

/-- C6 at a concrete input: with an empty password nothing is built, called or
written. -/
theorem manager_only_after_resolution_witness :
    (Execute (World.of "" "" (.ok []) reliableStdout)
        (Viper.ofFlags "admin" "" "https://example.org/" false)).managers = [] ∧
    (Execute (World.of "" "" (.ok []) reliableStdout)
        (Viper.ofFlags "admin" "" "https://example.org/" false)).listCalls = [] ∧
    (Execute (World.of "" "" (.ok []) reliableStdout)
        (Viper.ofFlags "admin" "" "https://example.org/" false)).stdout = reliableStdout := by
  have h := (manager_only_after_resolution (World.of "" "" (.ok []) reliableStdout)
    (Viper.ofFlags "admin" "" "https://example.org/" false)).2.2.2
      Error.errMissingAPIPassword (by rw [resolve_eq]; exact if_pos (by decide))
  exact ⟨h.1, h.2.1, h.2.2.1⟩

/-- C8: when the call `ListCommunities` fails, the run returns exactly the error
of the call and standard output is untouched: no write was attempted, so neither
the header nor any row was emitted. -/
theorem list_failure_returned (w : World) (v : Viper) (m : Manager) (e : Error)
    (hm : m ∈ (Execute w v).listCalls) (he : w.ListCommunities m = .error e) :
    (Execute w v).err = some e ∧ (Execute w v).stdout = w.Stdout := by
  cases hpre : w.bindPreRunE with
  | some e1 => simp [Execute, PreRunE, hpre] at hm
  | none =>
    cases hrun : w.bindRunE with
    | some e2 => simp [Execute, PreRunE, hpre, RunE, hrun] at hm
    | none =>
      cases hres : resolve w v with
      | error e3 =>
        have h := Execute_of_resolve_error w v e3 hres
        rw [h.2.1] at hm
        simp at hm
      | ok c =>
        have h := Execute_of_resolve_ok w v c hpre hrun hres
        rw [h.2] at hm
        have hm2 : m = NewManager (v.GetString raddrFlag) c.username c.password := by
          simpa using hm
        subst hm2
        unfold resolve at hres
        simp [Execute, PreRunE, hpre, RunE, hrun, hres, GetString_applyEnv_raddr, he]

/-- C8 at a concrete input: the service refuses the connection. -/
theorem list_failure_returned_witness :
    (Execute (World.of "" "" (.error (Error.external "connection refused")) reliableStdout)
        (Viper.ofFlags "admin" "secret" "https://example.org/" false)).err =
      some (Error.external "connection refused") ∧
    (Execute (World.of "" "" (.error (Error.external "connection refused")) reliableStdout)
        (Viper.ofFlags "admin" "secret" "https://example.org/" false)).stdout = reliableStdout :=
  list_failure_returned (World.of "" "" (.error (Error.external "connection refused")) reliableStdout)
    (Viper.ofFlags "admin" "secret" "https://example.org/" false)
    (NewManager "https://example.org/" "admin" "secret") (Error.external "connection refused")
    (by
      rw [(Execute_of_resolve_ok _ _ (Credentials.mk "admin" "secret") rfl rfl
        (by rw [resolve_eq, if_neg (by decide), if_neg (by decide)]; rfl)).2]
      exact List.mem_singleton.mpr rfl)
    rfl

/-- C9: the verbose flag is diagnostic only.  Two runs that differ only in the
verbose flag resolve the same credentials, return the same result, build and
call the same manager and leave the same standard output; the run without
the flag logs nothing and the run with it logs only the two override notes. -/
theorem verbose_only_logs (w : World) (bound : String → String)
    (override : String → Option String) :
    resolve w (Viper.mk bound override true) = resolve w (Viper.mk bound override false) ∧
    (Execute w (Viper.mk bound override true)).err =
      (Execute w (Viper.mk bound override false)).err ∧
    (Execute w (Viper.mk bound override true)).stdout =
      (Execute w (Viper.mk bound override false)).stdout ∧
    (Execute w (Viper.mk bound override true)).managers =
      (Execute w (Viper.mk bound override false)).managers ∧
    (Execute w (Viper.mk bound override true)).listCalls =
      (Execute w (Viper.mk bound override false)).listCalls ∧
    (Execute w (Viper.mk bound override false)).log = [] ∧
    (∀ l ∈ (Execute w (Viper.mk bound override true)).log,
      l = "Using username from API_USERNAME env variable" ∨
      l = "Using password from API_PASSWORD env variable") := by
  obtain ⟨o, h1, h0, hlog0, hlog1⟩ := applyEnv_verbose w bound override
  have hrun : RunE w (applyEnv w (Viper.mk bound override true)).1 =
      RunE w (applyEnv w (Viper.mk bound override false)).1 := by
    rw [h1, h0]
    exact RunE_verbose w bound o true false
  have hlogRun : ∀ u, (RunE w u).log = [] := by
    intro u
    unfold RunE
    cases w.bindRunE with
    | some e => rfl
    | none =>
      cases checkCredentials u with
      | error e => rfl
      | ok c =>
        dsimp only
        cases w.ListCommunities (NewManager (u.GetString raddrFlag) c.username c.password) <;> rfl
  refine ⟨?_, ?_, ?_, ?_, ?_, ?_, ?_⟩
  · unfold resolve
    rw [h1, h0]
    rfl
  all_goals
    cases hpre : w.bindPreRunE <;>
      simp [Execute, PreRunE, hpre, hrun, hlog0, hlogRun]
  all_goals
    intro l hl
    exact hlog1 l hl

/-! ## The buffered writer -/

/-- What a write does to the stream: its behaviour stays, the bytes taken are
appended, at most the bytes offered are taken, and the call is recorded. -/
theorem Sink.Write_spec (s : Sink) (p : List UInt8) :
    (s.Write p).1.respond = s.respond ∧
    (s.Write p).1.data = s.data ++ p.take (s.Write p).2.1 ∧
    (s.Write p).2.1 ≤ p.length ∧
    (s.Write p).1.calls = s.calls ++ [⟨p, (s.Write p).2.1, (s.Write p).2.2⟩] ∧
    (s.Reliable → (s.Write p).2 = (p.length, none)) := by
  refine ⟨rfl, rfl, Nat.min_le_right _ _, rfl, ?_⟩
  intro hrel
  simp [Sink.Write, hrel s.calls p]

namespace bufio

/-- What `Flush` does: the bytes given to the writer are kept, the returned error
is the sticky one, a reliable stream flushes without error, and a flush without
error empties the buffer. -/
theorem Flush_spec (b : Writer) :
    b.Flush.1.err = b.Flush.2 ∧
    b.Flush.1.wr.respond = b.wr.respond ∧
    b.wr.data <+: b.Flush.1.wr.data ∧
    b.Flush.1.stream = b.stream ∧
    (b.wr.Reliable → b.err = none → b.Flush.2 = none) ∧
    (b.Flush.2 = none → b.Flush.1.buf = [] ∨ b.err ≠ none) := by
  unfold Writer.Flush
  cases herr : b.err with
  | some e => simp [herr]
  | none =>
    by_cases hlen : b.buf.length = 0
    · have hnil : b.buf = [] := List.length_eq_zero.mp hlen
      simp [hlen, herr, hnil]
    · simp only [hlen, if_false]
      obtain ⟨hresp, hdata, hle, -, hrel⟩ := Sink.Write_spec b.wr b.buf
      split
      · rename_i e heq
        refine ⟨rfl, hresp, ?_, ?_, ?_, ?_⟩
        · simp only [hdata]
          exact List.prefix_append _ _
        · simp only [Writer.stream, hdata, List.append_assoc, List.take_append_drop]
        · intro hr _
          rw [hrel hr] at heq
          simp at heq
        · intro h
          cases h
      · rename_i heq
        have hn : (b.wr.Write b.buf).2.1 = b.buf.length := by
          by_cases hlt : (b.wr.Write b.buf).2.1 < b.buf.length
          · by_cases hnone : (b.wr.Write b.buf).2.2 = none
            · rw [if_pos ⟨hlt, hnone⟩] at heq
              cases heq
            · rw [if_neg (fun h => hnone h.2)] at heq
              exact absurd heq hnone
          · omega
        refine ⟨rfl, hresp, ?_, ?_, ?_, ?_⟩
        · simp only [hdata]
          exact List.prefix_append _ _
        · simp only [Writer.stream, hdata, hn, List.take_length, List.append_nil]
        · intro _ _
          rfl
        · intro _
          exact Or.inl rfl

/-- A flush of a non-empty buffer without sticky error is one write of the whole
buffer on the underlying stream. -/
theorem Flush_wr (b : Writer) (herr : b.err = none) (hne : b.buf ≠ []) :
    b.Flush.1.wr = (b.wr.Write b.buf).1 := by
  have hlen : b.buf.length ≠ 0 := fun h => hne (List.length_eq_zero.mp h)
  unfold Writer.Flush
  simp only [herr, hlen, if_false]
  split <;> rfl

/-- An operation that leaves the writer alone and returns its sticky error. -/
theorem Emits.of_sticky (b : Writer) (e : Error) (req : List UInt8) (h : b.err = some e) :
    Emits b b (some e) req := by
  refine ⟨h, rfl, List.prefix_refl _, ⟨[], List.nil_prefix, by simp, by simp⟩, ?_, ?_⟩
  · intro _ hn
    rw [h] at hn
    cases hn
  · intro hn
    rw [h] at hn
    cases hn

/-- An operation that only appends to the buffer. -/
theorem Emits.of_append (b : Writer) (req : List UInt8) (h : b.err = none) :
    Emits b { b with buf := b.buf ++ req } none req := by
  refine ⟨h, rfl, List.prefix_refl _, ⟨req, List.prefix_refl _, ?_, fun _ => rfl⟩, ?_, ?_⟩
  · simp [Writer.stream]
  · intro _ _
    rfl
  · intro _ _
    exact ⟨rfl, rfl⟩

/-- A failed operation stays a failed operation when more was to follow. -/
theorem Emits.weaken {b b1 : Writer} {e : Error} {r1 : List UInt8} (r2 : List UInt8)
    (h : Emits b b1 (some e) r1) : Emits b b1 (some e) (r1 ++ r2) := by
  obtain ⟨herr, hresp, hdata, ⟨t, ht, hstream, -⟩, hrel, hfit⟩ := h
  refine ⟨herr, hresp, hdata, ⟨t, ht.trans (List.prefix_append _ _), hstream, ?_⟩, hrel, ?_⟩
  · intro hn
    cases hn
  · intro hnone hlen
    have hlen1 : b.buf.length + r1.length ≤ defaultBufSize := by
      rw [List.length_append] at hlen
      omega
    have := (hfit hnone hlen1).1
    cases this

/-- Two operations in a row, the second run after the first returned no error. -/
theorem Emits.trans {b b1 b2 : Writer} {e : Option Error} {r1 r2 : List UInt8}
    (h1 : Emits b b1 none r1) (h2 : Emits b1 b2 e r2) : Emits b b2 e (r1 ++ r2) := by
  obtain ⟨herr1, hresp1, hdata1, ⟨t1, -, hstream1, hall1⟩, hrel1, hfit1⟩ := h1
  obtain ⟨herr2, hresp2, hdata2, ⟨t2, ht2, hstream2, hall2⟩, hrel2, hfit2⟩ := h2
  have ht1 : t1 = r1 := hall1 rfl
  subst ht1
  refine ⟨herr2, hresp2.trans hresp1, hdata1.trans hdata2, ⟨t1 ++ t2, ?_, ?_, ?_⟩, ?_, ?_⟩
  · exact (List.prefix_append_right_inj t1).mpr ht2
  · rw [hstream2, hstream1, List.append_assoc]
  · intro hn
    rw [hall2 hn]
  · intro hr hn
    apply hrel2 _ herr1
    intro h p
    rw [hresp1]
    exact hr h p
  · intro hn hlen
    have hlen1 : b.buf.length + t1.length ≤ defaultBufSize := by
      rw [List.length_append] at hlen
      omega
    have hb1 := (hfit1 hn hlen1).2
    have hlen2 : b1.buf.length + r2.length ≤ defaultBufSize := by
      rw [hb1]
      simp only [List.length_append] at hlen ⊢
      omega
    obtain ⟨he, hb2⟩ := hfit2 herr1 hlen2
    refine ⟨he, ?_⟩
    rw [hb2, hb1]
    simp [List.append_assoc]

/-- What `WriteByte` does. -/
theorem WriteByte_emits (b : Writer) (c : UInt8) :
    Emits b (b.WriteByte c).1 (b.WriteByte c).2 [c] := by
  unfold Writer.WriteByte
  cases herr : b.err with
  | some e => exact Emits.of_sticky b e _ herr
  | none =>
    by_cases hav : b.Available = 0
    · simp only [hav, if_true]
      obtain ⟨hferr, hfresp, hfdata, hfstream, hfrel, hfbuf⟩ := Flush_spec b
      have hfull : ¬ (b.buf.length + [c].length ≤ defaultBufSize) := by
        simp only [Writer.Available, defaultBufSize] at hav ⊢
        simp only [List.length_singleton]
        omega
      split
      · rename_i b1 e heq
        have h1 : b.Flush.1 = b1 := congrArg Prod.fst heq
        have h2 : b.Flush.2 = some e := congrArg Prod.snd heq
        rw [h1] at hferr hfresp hfdata hfstream
        rw [h2] at hferr hfrel
        refine ⟨hferr, hfresp, hfdata, ⟨[], List.nil_prefix, by simp [hfstream], by simp⟩, ?_, ?_⟩
        · intro hr _
          exact hfrel hr herr
        · intro _ hlen
          exact absurd hlen hfull
      · rename_i b1 heq
        have h1 : b.Flush.1 = b1 := congrArg Prod.fst heq
        have h2 : b.Flush.2 = none := congrArg Prod.snd heq
        rw [h1] at hferr hfresp hfdata hfstream
        rw [h2] at hferr
        refine ⟨hferr, hfresp, hfdata,
          ⟨[c], List.prefix_refl _, ?_, fun _ => rfl⟩, ?_, ?_⟩
        · simp only [Writer.stream] at hfstream ⊢
          rw [← List.append_assoc, hfstream]
        · intro _ _
          rfl
        · intro _ hlen
          exact absurd hlen hfull
    · simp only [hav, if_false]
      have h := Emits.of_append b [c] herr
      rw [herr] at h
      exact h

/-- What `WriteString` does. -/
theorem WriteString_emits (b : Writer) (s : List UInt8) :
    Emits b (b.WriteString s).1 (b.WriteString s).2.2 s := by
  induction b, s using Writer.WriteString.induct with
  | case1 b s hcond n b1 b2 ih =>
    rw [Writer.WriteString.eq_1, dif_pos hcond]
    obtain ⟨hlen, herr⟩ := hcond
    have hn : n = b.Available := Nat.min_eq_left (Nat.le_of_lt hlen)
    obtain ⟨hferr, hfresp, hfdata, hfstream, hfrel, -⟩ := Flush_spec b1
    obtain ⟨herr2, hresp2, hdata2, ⟨t, ht, hstream2, hall2⟩, hrel2, -⟩ := ih
    have hb1stream : b1.stream = b.stream ++ s.take n := by
      simp [b1, Writer.stream]
    refine ⟨herr2, ?_, ?_, ⟨s.take n ++ t, ?_, ?_, ?_⟩, ?_, ?_⟩
    · exact hresp2.trans hfresp
    · exact List.IsPrefix.trans hfdata hdata2
    · have := (List.prefix_append_right_inj (s.take n)).mpr ht
      rwa [List.take_append_drop] at this
    · rw [hstream2]
      show b1.Flush.1.stream ++ t = b.stream ++ (s.take n ++ t)
      rw [hfstream, hb1stream, List.append_assoc]
    · intro hnone
      rw [hall2 hnone, List.take_append_drop]
    · intro hr _
      apply hrel2
      · intro h p
        show b1.Flush.1.wr.respond h p = _
        rw [hfresp]
        exact hr h p
      · show b1.Flush.1.err = none
        rw [hferr]
        exact hfrel hr herr
    · intro _ hfit
      exfalso
      simp only [Writer.Available] at hlen
      omega
  | case2 b s hcond e herr =>
    rw [Writer.WriteString.eq_1, dif_neg hcond]
    simp only [herr]
    exact Emits.of_sticky b e s herr
  | case3 b s hcond herr =>
    rw [Writer.WriteString.eq_1, dif_neg hcond]
    simp only [herr]
    have h := Emits.of_append b s herr
    rw [herr] at h
    exact h

/-- An operation that does nothing. -/
theorem Emits.nothing (b : Writer) (h : b.err = none) : Emits b b none [] := by
  have h1 := Emits.of_append b [] h
  simpa using h1

end bufio

/-! ## The CSV writer -/

theorem utf8_mk_append (l1 l2 : List Char) : utf8 ⟨l1 ++ l2⟩ = utf8 ⟨l1⟩ ++ utf8 ⟨l2⟩ := by
  simp [utf8, List.flatMap_append]

theorem utf8_append (a b : String) : utf8 (a ++ b) = utf8 a ++ utf8 b := by
  simp [utf8, String.data_append, List.flatMap_append]

/-- The first element that `dropWhile` keeps fails the test. -/
theorem dropWhile_head_not {α : Type} (p : α → Bool) (l : List α) (c : α) (rest : List α)
    (h : l.dropWhile p = c :: rest) : p c = false := by
  have hne : l.dropWhile p ≠ [] := by
    rw [h]
    exact List.cons_ne_nil _ _
  have hhead := List.head_dropWhile_not p l hne
  simp only [h, List.head_cons] at hhead
  exact hhead

namespace csv

theorem quoteBody_cons (c : Char) (rest : List Char) :
    quoteBody (c :: rest) = quoteBody [c] ++ quoteBody rest := by
  by_cases h : c = '"' <;> simp [quoteBody, h]

/-- The body of a quoted field, cut at its first special character. -/
theorem quoteBody_split (field : List Char) :
    quoteBody field = field.takeWhile (fun c => !isSpecial c) ++
      quoteBody (field.dropWhile (fun c => !isSpecial c)) := by
  induction field with
  | nil => simp [quoteBody]
  | cons c rest ih =>
    by_cases hc : isSpecial c = true
    · simp [List.takeWhile_cons, List.dropWhile_cons, hc]
    · have hq : c ≠ '"' := by
        intro h
        apply hc
        rw [h]
        decide
      simp only [Bool.not_eq_true] at hc
      simp [List.takeWhile_cons, List.dropWhile_cons, hc, quoteBody, hq]
      exact ih

/-- What the switch on a special character does. -/
theorem writeSpecial_emits (b : bufio.Writer) (c : Char) (hc : isSpecial c = true) :
    bufio.Emits b (writeSpecial b c).1 (writeSpecial b c).2 (utf8 ⟨quoteBody [c]⟩) := by
  unfold writeSpecial
  by_cases h1 : c = '"'
  · subst h1
    simp only [if_true]
    exact bufio.WriteString_emits b _
  · by_cases h2 : c = '\r'
    · subst h2
      simp only [h1, if_false, if_true]
      exact bufio.WriteByte_emits b 0x0D
    · by_cases h3 : c = '\n'
      · subst h3
        simp only [h1, h2, if_false, if_true]
        exact bufio.WriteByte_emits b 0x0A
      · exfalso
        simp [isSpecial, h1, h2, h3] at hc

/-- What the quoted-field loop does. -/
theorem writeQuoted_emits (b : bufio.Writer) (field : List Char) (herr : b.err = none) :
    bufio.Emits b (writeQuoted b field).1 (writeQuoted b field).2 (utf8 ⟨quoteBody field⟩) := by
  induction b, field using writeQuoted.induct with
  | case1 b field hempty =>
    have hnil : field = [] := List.isEmpty_iff.mp hempty
    subst hnil
    rw [writeQuoted]
    simp only [List.isEmpty_nil, if_true]
    exact bufio.Emits.nothing b herr
  | case2 b field hne b1 k e hws =>
    rw [writeQuoted, if_neg hne]
    simp only [hws]
    have h1 := bufio.WriteString_emits b (utf8 ⟨field.takeWhile (fun c => !isSpecial c)⟩)
    rw [hws] at h1
    rw [quoteBody_split field, utf8_mk_append]
    exact h1.weaken _
  | case3 b field hne b1 k hws hrest =>
    rw [writeQuoted, if_neg hne]
    simp only [hws]
    split
    · have h1 := bufio.WriteString_emits b (utf8 ⟨field.takeWhile (fun c => !isSpecial c)⟩)
      rw [hws] at h1
      rw [quoteBody_split field, utf8_mk_append, hrest]
      simpa [quoteBody, utf8] using h1
    · rename_i c rest heq
      rw [hrest] at heq
      cases heq
  | case4 b field hne b1 k hws c rest hrest b2 e hsp =>
    rw [writeQuoted, if_neg hne]
    simp only [hws]
    have h1 := bufio.WriteString_emits b (utf8 ⟨field.takeWhile (fun c => !isSpecial c)⟩)
    rw [hws] at h1
    have hc : isSpecial c = true := by
      have := dropWhile_head_not _ _ _ _ hrest
      simpa using this
    have h2 := writeSpecial_emits b1 c hc
    rw [hsp] at h2
    split
    · rename_i heq
      rw [hrest] at heq
      cases heq
    · rename_i c2 rest2 heq
      rw [hrest] at heq
      cases heq
      simp only [hsp]
      rw [quoteBody_split field, utf8_mk_append, hrest, quoteBody_cons, utf8_mk_append]
      exact h1.trans (h2.weaken _)
  | case5 b field hne b1 k hws c rest hrest b2 hsp ih =>
    rw [writeQuoted, if_neg hne]
    simp only [hws]
    have h1 := bufio.WriteString_emits b (utf8 ⟨field.takeWhile (fun c => !isSpecial c)⟩)
    rw [hws] at h1
    have hc : isSpecial c = true := by
      have := dropWhile_head_not _ _ _ _ hrest
      simpa using this
    have h2 := writeSpecial_emits b1 c hc
    rw [hsp] at h2
    split
    · rename_i heq
      rw [hrest] at heq
      cases heq
    · rename_i c2 rest2 heq
      rw [hrest] at heq
      cases heq
      simp only [hsp]
      rw [quoteBody_split field, utf8_mk_append, hrest, quoteBody_cons, utf8_mk_append]
      exact h1.trans (h2.trans (ih h2.1))

/-- What writing one field does. -/
theorem writeField_emits (b : bufio.Writer) (field : String) :
    bufio.Emits b (writeField b field).1 (writeField b field).2 (encodeField field) := by
  unfold writeField encodeField
  by_cases hq : fieldNeedsQuotes field = true
  · simp only [hq, Bool.not_true, if_true]
    have : (false = true) = False := by simp
    simp only [this, if_false]
    rcases h1x : b.WriteByte 0x22 with ⟨b1, e1⟩
    have h1 := bufio.WriteByte_emits b 0x22
    rw [h1x] at h1
    cases e1 with
    | some e =>
      simp only [List.append_assoc]
      exact h1.weaken _
    | none =>
      simp only []
      rcases h2x : writeQuoted b1 field.data with ⟨b2, e2⟩
      have h2 := writeQuoted_emits b1 field.data h1.1
      rw [h2x] at h2
      cases e2 with
      | some e =>
        simp only [List.append_assoc]
        exact h1.trans (h2.weaken _)
      | none =>
        simp only [List.append_assoc]
        exact h1.trans (h2.trans (bufio.WriteByte_emits b2 0x22))
  · simp only [Bool.not_eq_true] at hq
    simp only [hq, Bool.not_false, if_true]
    have : (false = true) = False := by simp
    simp only [this, if_false]
    exact bufio.WriteString_emits b _

/-- What the loop over the fields of a record does. -/
theorem writeFields_emits (record : List String) (b : bufio.Writer) (n : Nat)
    (herr : b.err = none) :
    bufio.Emits b (writeFields b n record).1 (writeFields b n record).2
      (encodeFields n record) := by
  induction record generalizing b n with
  | nil =>
    simp only [writeFields, encodeFields]
    exact bufio.Emits.nothing b herr
  | cons field rest ih =>
    simp only [writeFields, encodeFields]
    have h0 : bufio.Emits b (if n > 0 then b.WriteByte 0x2C else (b, none)).1
        (if n > 0 then b.WriteByte 0x2C else (b, none)).2 (if n > 0 then [0x2C] else []) := by
      by_cases hn : n > 0
      · simp only [hn, if_true]
        exact bufio.WriteByte_emits b 0x2C
      · simp only [hn, if_false]
        exact bufio.Emits.nothing b herr
    rcases h0x : (if n > 0 then b.WriteByte 0x2C else (b, none)) with ⟨b0, e0⟩
    rw [h0x] at h0
    cases e0 with
    | some e =>
      simp only [List.append_assoc]
      exact h0.weaken _
    | none =>
      simp only []
      rcases h1x : writeField b0 field with ⟨b1, e1⟩
      have h1 := writeField_emits b0 field
      rw [h1x] at h1
      cases e1 with
      | some e =>
        simp only [List.append_assoc]
        exact h0.trans (h1.weaken _)
      | none =>
        simp only [List.append_assoc]
        exact h0.trans (h1.trans (ih b1 (n + 1) h1.1))

/-- What `Write` does: it adds the bytes of the record. -/
theorem Write_emits (w : Writer) (record : List String) (herr : w.w.err = none) :
    bufio.Emits w.w (w.Write record).1.w (w.Write record).2 (encodeRecord record) := by
  unfold Writer.Write encodeRecord
  rcases h1x : writeFields w.w 0 record with ⟨b1, e1⟩
  have h1 := writeFields_emits record w.w 0 herr
  rw [h1x] at h1
  cases e1 with
  | some e =>
    simp only []
    exact h1.weaken _
  | none =>
    simp only []
    exact h1.trans (bufio.WriteByte_emits b1 0x0A)

end csv

/-! ## Rendering -/

/-- What the loop over the communities does. -/
theorem writeCommunities_emits (cs : List Community) (w : csv.Writer) (herr : w.w.err = none) :
    bufio.Emits w.w (writeCommunities w cs).1.w (writeCommunities w cs).2
      (cs.flatMap (fun c => csv.encodeRecord (communityRecord c))) := by
  induction cs generalizing w with
  | nil =>
    simp only [writeCommunities, List.flatMap_nil]
    exact bufio.Emits.nothing w.w herr
  | cons c rest ih =>
    simp only [writeCommunities, List.flatMap_cons]
    rcases h1x : w.Write (communityRecord c) with ⟨w1, e1⟩
    have h1 := csv.Write_emits w (communityRecord c) herr
    rw [h1x] at h1
    cases e1 with
    | some e =>
      simp only []
      exact h1.weaken _
    | none =>
      simp only []
      exact h1.trans (ih w1 h1.1)

/-- What the header and the communities together add: the complete CSV text. -/
theorem writeAll_emits (cs : List Community) (w : csv.Writer) (herr : w.w.err = none) :
    bufio.Emits w.w (writeAll w cs).1.w (writeAll w cs).2 (csvBytes cs) := by
  unfold writeAll csvBytes
  rcases h1x : w.Write ["id", "clients", "persistent"] with ⟨w1, e1⟩
  have h1 := csv.Write_emits w ["id", "clients", "persistent"] herr
  rw [h1x] at h1
  cases e1 with
  | some e =>
    simp only []
    exact h1.weaken _
  | none =>
    simp only []
    exact h1.trans (writeCommunities_emits cs w1 h1.1)

/-- The bytes that reach standard output are the old ones followed by an initial
part of the complete CSV text. -/
theorem render_initial_part (cs : List Community) (stdout : Sink) :
    ∃ p, p <+: csvBytes cs ∧ (render cs stdout).2.data = stdout.data ++ p := by
  have hE := writeAll_emits cs (csv.NewWriter stdout) rfl
  obtain ⟨-, -, hdata, ⟨t, ht, hstream, -⟩, -, -⟩ := hE
  obtain ⟨-, -, hfdata, hfstream, -, -⟩ :=
    bufio.Flush_spec (writeAll (csv.NewWriter stdout) cs).1.w
  obtain ⟨p, hp⟩ := hdata.trans hfdata
  have hs : (csv.NewWriter stdout).w.stream = stdout.data := by
    simp [csv.NewWriter, bufio.NewWriter, bufio.Writer.stream]
  have hd : (csv.NewWriter stdout).w.wr.data = stdout.data := rfl
  rw [hs] at hstream
  rw [hd] at hp
  rw [hstream] at hfstream
  refine ⟨p, ?_, ?_⟩
  · have hpt : p <+: t := by
      refine ⟨(writeAll (csv.NewWriter stdout) cs).1.w.Flush.1.buf, ?_⟩
      have h2 : stdout.data ++ (p ++ (writeAll (csv.NewWriter stdout) cs).1.w.Flush.1.buf) =
          stdout.data ++ t := by
        rw [← List.append_assoc, hp]
        exact hfstream
      exact List.append_cancel_left h2
    exact hpt.trans ht
  · exact hp.symm

/-- On a reliable standard output rendering returns no error and the complete
CSV text is appended. -/
theorem render_reliable (cs : List Community) (stdout : Sink) (hrel : stdout.Reliable) :
    (render cs stdout).1 = none ∧ (render cs stdout).2.data = stdout.data ++ csvBytes cs := by
  have hE := writeAll_emits cs (csv.NewWriter stdout) rfl
  obtain ⟨herr, hresp, -, ⟨t, -, hstream, hall⟩, hr, -⟩ := hE
  have hnone : (writeAll (csv.NewWriter stdout) cs).2 = none := hr hrel rfl
  obtain ⟨-, -, -, hfstream, hfrel, hfbuf⟩ :=
    bufio.Flush_spec (writeAll (csv.NewWriter stdout) cs).1.w
  have herr2 : (writeAll (csv.NewWriter stdout) cs).1.w.err = none := herr.trans hnone
  have hrel2 : (writeAll (csv.NewWriter stdout) cs).1.w.wr.Reliable := by
    intro h p
    rw [hresp]
    exact hrel h p
  have hbuf : (writeAll (csv.NewWriter stdout) cs).1.w.Flush.1.buf = [] := by
    rcases hfbuf (hfrel hrel2 herr2) with h | h
    · exact h
    · exact absurd herr2 h
  refine ⟨hnone, ?_⟩
  have hs : (csv.NewWriter stdout).w.stream = stdout.data := by
    simp [csv.NewWriter, bufio.NewWriter, bufio.Writer.stream]
  rw [hstream, hs, hall hnone] at hfstream
  simp only [bufio.Writer.stream, hbuf, List.append_nil] at hfstream
  exact hfstream

/-- The complete CSV text is never empty: it starts with the header. -/
theorem csvBytes_ne_nil (cs : List Community) : csvBytes cs ≠ [] := by
  unfold csvBytes
  have h : csv.encodeRecord ["id", "clients", "persistent"] ≠ [] := by decide
  intro hnil
  exact h (List.append_eq_nil.mp hnil).1

/-- When the complete CSV text fits into the buffer, rendering returns no error
whatever standard output does, and standard output sees exactly one write, made
by the deferred flush, that offers the complete text. -/
theorem render_fits (cs : List Community) (stdout : Sink)
    (hlen : (csvBytes cs).length ≤ bufio.defaultBufSize) :
    render cs stdout = (none, (stdout.Write (csvBytes cs)).1) := by
  have hE := writeAll_emits cs (csv.NewWriter stdout) rfl
  obtain ⟨-, -, -, -, -, hfit⟩ := hE
  obtain ⟨hnone, hb⟩ := hfit rfl (by simpa [csv.NewWriter, bufio.NewWriter] using hlen)
  have hw : (writeAll (csv.NewWriter stdout) cs).1.w =
      { err := none, buf := csvBytes cs, wr := stdout } := by
    rw [hb]
    simp [csv.NewWriter, bufio.NewWriter]
  have hflush := bufio.Flush_wr (writeAll (csv.NewWriter stdout) cs).1.w
    (by rw [hw]) (by rw [hw]; exact csvBytes_ne_nil cs)
  unfold render
  simp only [csv.Writer.Flush, hnone, hflush]
  rw [hw]

/-- Once rendering a list has returned an error, rows that follow it play no
part: the result and standard output are the same. -/
theorem writeCommunities_append (cs more : List Community) (w : csv.Writer) (e : Error)
    (h : (writeCommunities w cs).2 = some e) :
    writeCommunities w (cs ++ more) = writeCommunities w cs := by
  induction cs generalizing w with
  | nil => simp [writeCommunities] at h
  | cons c rest ih =>
    simp only [List.cons_append, writeCommunities] at h ⊢
    rcases hx : w.Write (communityRecord c) with ⟨w1, e1⟩
    rw [hx] at h
    cases e1 with
    | some e2 => rfl
    | none =>
      simp only [] at h ⊢
      exact ih w1 h

/-- Once rendering a list has returned an error, rendering a longer list gives
the same result and the same standard output. -/
theorem render_append (cs more : List Community) (stdout : Sink)
    (h : (render cs stdout).1 ≠ none) : render (cs ++ more) stdout = render cs stdout := by
  have hall : writeAll (csv.NewWriter stdout) (cs ++ more) = writeAll (csv.NewWriter stdout) cs := by
    unfold render at h
    unfold writeAll at h ⊢
    rcases hx : (csv.NewWriter stdout).Write ["id", "clients", "persistent"] with ⟨w1, e1⟩
    rw [hx] at h
    cases e1 with
    | some e => rfl
    | none =>
      simp only [] at h ⊢
      cases he : (writeCommunities w1 cs).2 with
      | none => exact absurd he h
      | some e => exact writeCommunities_append cs more w1 e he
  unfold render
  rw [hall]

/-! ## The CSV text of plain records -/

/-- Characters of which decimal numbers are made. -/
theorem digitChar_plain : ∀ k, k < 10 → Nat.digitChar k ∈ "0123456789-".data := by decide

theorem toDigitsCore_plain (fuel n : Nat) (ds : List Char)
    (h : ∀ c ∈ ds, c ∈ "0123456789-".data) :
    ∀ c ∈ Nat.toDigitsCore 10 fuel n ds, c ∈ "0123456789-".data := by
  induction fuel generalizing n ds with
  | zero => simpa [Nat.toDigitsCore] using h
  | succ fuel ih =>
    have hd : Nat.digitChar (n % 10) ∈ "0123456789-".data :=
      digitChar_plain _ (Nat.mod_lt _ (by decide))
    have hcons : ∀ c ∈ Nat.digitChar (n % 10) :: ds, c ∈ "0123456789-".data := by
      intro c hc
      rcases List.mem_cons.mp hc with h1 | h1
      · rw [h1]
        exact hd
      · exact h c h1
    simp only [Nat.toDigitsCore]
    split
    · exact hcons
    · exact ih _ _ hcons

/-- The decimal form of an integer is made of digits and the minus sign. -/
theorem FormatInt_plain (i : Int) : ∀ c ∈ (FormatInt i).data, c ∈ "0123456789-".data := by
  have hrepr : ∀ m : Nat, ∀ c ∈ (Nat.repr m).data, c ∈ "0123456789-".data := by
    intro m
    exact toDigitsCore_plain _ _ [] (by simp)
  cases i with
  | ofNat m => exact hrepr m
  | negSucc m =>
    intro c hc
    simp only [FormatInt, String.data_append] at hc
    rcases List.mem_append.mp hc with h1 | h1
    · have : c = '-' := by simpa using h1
      rw [this]
      decide
    · exact hrepr _ c h1

namespace csv

/-- A field made of digits and the minus sign is written bare. -/
theorem fieldNeedsQuotes_plain (s : String) (h : ∀ c ∈ s.data, c ∈ "0123456789-".data) :
    fieldNeedsQuotes s = false := by
  have hspecial : ∀ c ∈ "0123456789-".data,
      (c == '\n' || c == '\r' || c == '"' || c == ',') = false := by decide
  have hspace : ∀ c ∈ "0123456789-".data, IsSpace c = false := by decide
  unfold fieldNeedsQuotes
  by_cases h0 : s = ""
  · simp [h0]
  · have h1 : s ≠ "\\." := by
      intro hs
      have hmem : '\\' ∈ "0123456789-".data := h _ (by rw [hs]; decide)
      revert hmem
      decide
    have h2 : s.data.any (fun c => c == '\n' || c == '\r' || c == '"' || c == ',') = false := by
      rw [List.any_eq_false]
      intro c hc
      simp only [hspecial c (h c hc)]
      exact Bool.false_ne_true
    rw [if_neg h0, if_neg h1, h2]
    simp only [Bool.false_eq_true, if_false]
    split
    · rfl
    · rename_i r1 rest heq
      exact hspace r1 (h r1 (by rw [heq]; exact List.mem_cons_self _ _))

/-- The bytes of the record of a community whose id is written bare are those of
the line the spec describes. -/
theorem encodeRecord_plain (c : Community) (h : fieldNeedsQuotes c.ID = false) :
    encodeRecord (communityRecord c) = utf8 (specLine c) := by
  have hi : fieldNeedsQuotes (FormatInt c.Clients) = false :=
    fieldNeedsQuotes_plain _ (FormatInt_plain _)
  have hb : fieldNeedsQuotes (FormatBool c.Persistent) = false := by
    cases c.Persistent <;> decide
  have hcomma : utf8 "," = [0x2C] := by decide
  have hnl : utf8 "\n" = [0x0A] := by decide
  simp only [encodeRecord, communityRecord, encodeFields, encodeField, h, hi, hb, specLine,
    utf8_append, hcomma, hnl]
  simp

end csv

/-- For ids that are written bare, the complete CSV text is the text the spec
describes. -/
theorem csvBytes_plain (cs : List Community)
    (h : ∀ c ∈ cs, csv.fieldNeedsQuotes c.ID = false) : csvBytes cs = utf8 (specCSV cs) := by
  have hheader : csv.encodeRecord ["id", "clients", "persistent"] =
      utf8 "id,clients,persistent\n" := by decide
  have hrows : cs.flatMap (fun c => csv.encodeRecord (communityRecord c)) =
      utf8 (specLines cs) := by
    induction cs with
    | nil => decide
    | cons c rest ih =>
      rw [List.flatMap_cons, specLines, utf8_append,
        csv.encodeRecord_plain c (h c (List.mem_cons_self _ _)),
        ih (fun c hc => h c (List.mem_cons_of_mem _ hc))]
  unfold csvBytes specCSV
  rw [hheader, hrows, utf8_append]

/-- When the call on the manager returned a list, the run ends as rendering that
list on standard output ends. -/
theorem Execute_of_list_ok (w : World) (v : Viper) (m : Manager) (cs : List Community)
    (hm : m ∈ (Execute w v).listCalls) (hl : w.ListCommunities m = .ok cs) :
    (Execute w v).err = (render cs w.Stdout).1 ∧
      (Execute w v).stdout = (render cs w.Stdout).2 := by
  cases hpre : w.bindPreRunE with
  | some e1 => simp [Execute, PreRunE, hpre] at hm
  | none =>
    cases hrun : w.bindRunE with
    | some e2 => simp [Execute, PreRunE, hpre, RunE, hrun] at hm
    | none =>
      cases hres : resolve w v with
      | error e3 =>
        have h := Execute_of_resolve_error w v e3 hres
        rw [h.2.1] at hm
        simp at hm
      | ok c =>
        have h := Execute_of_resolve_ok w v c hpre hrun hres
        rw [h.2] at hm
        have hm2 : m = NewManager (v.GetString raddrFlag) c.username c.password := by
          simpa using hm
        subst hm2
        unfold resolve at hres
        simp [Execute, PreRunE, hpre, RunE, hrun, hres, GetString_applyEnv_raddr, hl]

/-! ## Claims about rendering -/

namespace csv

/-- A field that is not backslash-dot, holds no comma, double quote, CR or LF
and does not start with white space is written bare. -/
theorem fieldNeedsQuotes_of_listed (s : String) (hdot : s ≠ "\\.")
    (hchars : ∀ ch ∈ s.data, ch ≠ ',' ∧ ch ≠ '"' ∧ ch ≠ '\r' ∧ ch ≠ '\n')
    (hlead : ∀ r1 ∈ s.data.head?, IsSpace r1 = false) : fieldNeedsQuotes s = false := by
  unfold fieldNeedsQuotes
  by_cases h0 : s = ""
  · simp [h0]
  · have h2 : s.data.any (fun c => c == '\n' || c == '\r' || c == '"' || c == ',') = false := by
      rw [List.any_eq_false]
      intro c hc
      obtain ⟨h1, h2, h3, h4⟩ := hchars c hc
      simp [h1, h2, h3, h4]
    rw [if_neg h0, if_neg hdot, h2]
    simp only [Bool.false_eq_true, if_false]
    split
    · rfl
    · rename_i r1 rest heq
      exact hlead r1 (by simp [heq])

end csv

/-- C5, as stated, fails: the id backslash-dot holds no comma, double quote, CR
or LF and does not start with white space, yet on a working standard output its
row is written with the id between double quotes, not as the bare line the
claim gives. -/
theorem render_quotes_backslash_dot :
    (∀ ch ∈ "\\.".data, ch ≠ ',' ∧ ch ≠ '"' ∧ ch ≠ '\r' ∧ ch ≠ '\n') ∧
    (∀ r1 ∈ "\\.".data.head?, IsSpace r1 = false) ∧
    (render [{ ID := "\\.", Clients := 3, Persistent := true }] reliableStdout).1 = none ∧
    (render [{ ID := "\\.", Clients := 3, Persistent := true }] reliableStdout).2.data =
      utf8 "id,clients,persistent\n\"\\.\",3,true\n" ∧
    (render [{ ID := "\\.", Clients := 3, Persistent := true }] reliableStdout).2.data ≠
      utf8 (specCSV [{ ID := "\\.", Clients := 3, Persistent := true }]) ∧
    specCSV [{ ID := "\\.", Clients := 3, Persistent := true }] =
      "id,clients,persistent\n\\.,3,true\n" := by
  have h := render_reliable [{ ID := "\\.", Clients := 3, Persistent := true }] reliableStdout
    (fun _ _ => rfl)
  refine ⟨by decide, by decide, h.1, ?_, ?_, by decide⟩
  · rw [h.2]
    decide
  · rw [h.2]
    decide

/-- C5, amended: for every community list, the empty list included, whose ids
hold no comma, double quote, CR or LF, do not start with white space and are
not the two characters backslash-dot, rendering on a working standard output
returns no error and appends exactly the header line followed by one line per
community, id, clients in decimal and persistent as true or false, in the order
of the list; this is also how a run ends when the remote service returned that
list. -/
theorem render_exact (cs : List Community) (stdout : Sink) (hrel : stdout.Reliable)
    (hplain : ∀ c ∈ cs, c.ID ≠ "\\." ∧
      (∀ ch ∈ c.ID.data, ch ≠ ',' ∧ ch ≠ '"' ∧ ch ≠ '\r' ∧ ch ≠ '\n') ∧
      (∀ r1 ∈ c.ID.data.head?, IsSpace r1 = false)) :
    (render cs stdout).1 = none ∧
    (render cs stdout).2.data = stdout.data ++ utf8 (specCSV cs) ∧
    (∀ (w : World) (v : Viper) (m : Manager), w.Stdout = stdout →
      m ∈ (Execute w v).listCalls → w.ListCommunities m = .ok cs →
      (Execute w v).err = none ∧
        (Execute w v).stdout.data = stdout.data ++ utf8 (specCSV cs)) := by
  have hbare : ∀ c ∈ cs, csv.fieldNeedsQuotes c.ID = false := by
    intro c hc
    obtain ⟨h1, h2, h3⟩ := hplain c hc
    exact csv.fieldNeedsQuotes_of_listed c.ID h1 h2 h3
  have h := render_reliable cs stdout hrel
  rw [csvBytes_plain cs hbare] at h
  refine ⟨h.1, h.2, ?_⟩
  intro w v m hw hm hl
  have hx := Execute_of_list_ok w v m cs hm hl
  rw [hw] at hx
  rw [hx.1, hx.2]
  exact h

/-- C5, amended, at the inputs of the spec: the two communities `a` and `b`
give the three lines of the spec, and the empty list gives the header line
alone. -/
theorem render_exact_witness :
    (render exampleCommunities reliableStdout).1 = none ∧
    (render exampleCommunities reliableStdout).2.data =
      utf8 "id,clients,persistent\na,3,true\nb,0,false\n" ∧
    (render [] reliableStdout).1 = none ∧
    (render [] reliableStdout).2.data = utf8 "id,clients,persistent\n" := by
  have h2 := render_exact exampleCommunities reliableStdout (fun _ _ => rfl) (by decide)
  have h0 := render_exact [] reliableStdout (fun _ _ => rfl) (by decide)
  exact ⟨h2.1, h2.2.1, h0.1, h0.2.1⟩

/-- C7 at a failing input: the remote service returns one community and standard
output refuses every write.  The header and the row stay in the buffer until
the deferred flush, whose single write fails; the error of that flush is
dropped, so rendering returns no error and the run ends in success although
nothing reached standard output. -/
theorem flush_error_dropped :
    (render [{ ID := "a", Clients := 3, Persistent := true }] closedStdout).1 = none ∧
    (render [{ ID := "a", Clients := 3, Persistent := true }] closedStdout).2.calls =
      [{ p := utf8 "id,clients,persistent\na,3,true\n", n := 0,
         err := some (Error.external "write /dev/stdout: file already closed") }] ∧
    (render [{ ID := "a", Clients := 3, Persistent := true }] closedStdout).2.data = [] ∧
    (render [{ ID := "a", Clients := 3, Persistent := true }] closedStdout).2.Failed ∧
    (Execute (World.of "" "" (.ok [{ ID := "a", Clients := 3, Persistent := true }]) closedStdout)
      (Viper.ofFlags "admin" "secret" "https://example.org/" false)).err = none ∧
    (Execute (World.of "" "" (.ok [{ ID := "a", Clients := 3, Persistent := true }]) closedStdout)
      (Viper.ofFlags "admin" "secret" "https://example.org/" false)).stdout.Failed := by
  have h := render_fits [{ ID := "a", Clients := 3, Persistent := true }] closedStdout
    (by decide)
  have hfailed : (closedStdout.Write
      (csvBytes [{ ID := "a", Clients := 3, Persistent := true }])).1.Failed :=
    ⟨_, List.mem_singleton.mpr rfl, Or.inl (by decide)⟩
  have hcalls := Execute_of_resolve_ok
    (World.of "" "" (.ok [{ ID := "a", Clients := 3, Persistent := true }]) closedStdout)
    (Viper.ofFlags "admin" "secret" "https://example.org/" false)
    (Credentials.mk "admin" "secret") rfl rfl
    (by rw [resolve_eq, if_neg (by decide), if_neg (by decide)]; rfl)
  have hx := Execute_of_list_ok
    (World.of "" "" (.ok [{ ID := "a", Clients := 3, Persistent := true }]) closedStdout)
    (Viper.ofFlags "admin" "secret" "https://example.org/" false)
    (NewManager "https://example.org/" "admin" "secret")
    [{ ID := "a", Clients := 3, Persistent := true }]
    (by rw [hcalls.2]; exact List.mem_singleton.mpr rfl) rfl
  have hstd : (World.of "" "" (.ok [{ ID := "a", Clients := 3, Persistent := true }])
      closedStdout).Stdout = closedStdout := rfl
  rw [hstd] at hx
  rw [hx.1, hx.2, h]
  exact ⟨rfl, by decide, by decide, hfailed, rfl, hfailed⟩

end Weron
